import Mathlib

/-!
Verification of the RTC signalling server (`src/server.py`).

The server keeps two module-level dictionaries:

* `rooms : {roomId: {userId: sid}}` — room directory (line 36);
* `user_rooms : {sid: {userId, roomId}}` — per-connection session (line 39);

and four socket handlers: `handle_join`, `handle_leave`, `handle_disconnect`
and `handle_message`, plus the helper `_remove_user_from_room`.

Python dictionaries are insertion-ordered maps with unique keys; we embed them
as association lists with Python's update semantics (updating an existing key
keeps its position, a new key is appended).  Broadcast delivery is performed
by flask_socketio: `join_room` / `leave_room` maintain a per-room set of
socket ids, and `emit(..., room=r, skip_sid=s)` delivers to every socket id
currently in room `r` except `s`.  That membership structure is modelled as a
third mapping `sio` from room id to the list of socket ids in the room.
-/

set_option autoImplicit false

namespace RtcSignal

/-- Socket / connection identifier (`request.sid`, a string in socketio). -/
abbrev Sid := String

/-- Room identifier, an opaque client-supplied string. -/
abbrev RoomId := String

/-- User identifier, an opaque client-supplied string. -/
abbrev UserId := String

/-- Python-dict style lookup in an association list: first binding wins. -/
def alLookup {α β : Type} [DecidableEq α] (k : α) : List (α × β) → Option β
  | [] => none
  | (k', v') :: rest => if k' = k then some v' else alLookup k rest

/-- Python-dict style insertion: `d[k] = v` replaces the binding in place if
the key exists, else appends the new binding at the end. -/
def alInsert {α β : Type} [DecidableEq α] (k : α) (v : β) : List (α × β) → List (α × β)
  | [] => [(k, v)]
  | (k', v') :: rest => if k' = k then (k, v) :: rest else (k', v') :: alInsert k v rest

/-- Python-dict style deletion: `del d[k]` removes the binding of `k`. -/
def alErase {α β : Type} [DecidableEq α] (k : α) : List (α × β) → List (α × β)
  | [] => []
  | (k', v') :: rest => if k' = k then rest else (k', v') :: alErase k rest

/-- Removal of one occurrence of an element from a plain list
(flask_socketio's `leave_room` discards the sid from the room's set). -/
def lrem {α : Type} [DecidableEq α] (x : α) : List α → List α
  | [] => []
  | y :: ys => if y = x then ys else y :: lrem x ys

/-- Truthiness of an optional string field, as Python's `not data.get(k)`:
a missing field (`None`) and the empty string are falsy. -/
def truthy : Option String → Bool
  | none => false
  | some s => !(s = "")

/-- Payload of an outbound socket event, one constructor per event name
emitted by `server.py` (`connected` is omitted: the transport-level connect
handler touches no room state). -/
inductive Payload where
  | joined (userId : UserId) (roomId : RoomId) (users : List UserId)
  | userJoined (userId : UserId) (roomId : RoomId)
  | leaved (userId : UserId) (roomId : RoomId)
  | userLeft (userId : UserId) (roomId : RoomId)
  | errorMsg (message : String)
  | relayed (roomId : Option String) (payload : String)
  deriving DecidableEq, Repr

/-- An `emit` call: either a direct reply to the requesting socket, or a
room-wide broadcast with an optional `skip_sid`. -/
inductive Emit where
  | direct (dest : Sid) (p : Payload)
  | broadcast (room : RoomId) (skip : Option Sid) (p : Payload)
  deriving DecidableEq, Repr

/-- Payload carried by an emit. -/
def Emit.payloadOf : Emit → Payload
  | .direct _ p => p
  | .broadcast _ _ p => p

/-- Inbound `data` dict of a `join` / `leave` event: the handlers read only
`data.get('userId')` and `data.get('roomId')`; a missing field is `none`. -/
structure JoinData where
  userId : Option String
  roomId : Option String
  deriving DecidableEq, Repr

/-- Inbound `data` dict of a `message` event: `handle_message` reads only
`data.get('roomId')` and relays the whole dict verbatim; the rest of the
dict is kept opaque. -/
structure MsgData where
  roomId : Option String
  rest : String
  deriving DecidableEq, Repr

/-- The server's mutable state: the two module-level dicts of `server.py`
plus flask_socketio's per-room socket membership. -/
structure ServerState where
  rooms : List (RoomId × List (UserId × Sid))
  user_rooms : List (Sid × (UserId × RoomId))
  sio : List (RoomId × List Sid)
  deriving DecidableEq, Repr

/-- Initial state: both dicts empty, no socketio room has members. -/
def initState : ServerState := ⟨[], [], []⟩

/-- Member dict of room `r` (empty when the room does not exist). -/
def roomMembers (st : ServerState) (r : RoomId) : List (UserId × Sid) :=
  (alLookup r st.rooms).getD []

/-- Socket ids currently in socketio room `r`. -/
def sioMembers (st : ServerState) (r : RoomId) : List Sid :=
  (alLookup r st.sio).getD []

/-- `join_room(r)` for socket `sid`: add the sid to the room's set. -/
def sioJoin (r : RoomId) (sid : Sid) (sio : List (RoomId × List Sid)) :
    List (RoomId × List Sid) :=
  let cur := (alLookup r sio).getD []
  if sid ∈ cur then sio else alInsert r (cur ++ [sid]) sio

/-- `leave_room(r)` for socket `sid`: discard the sid from the room's set. -/
def sioLeave (r : RoomId) (sid : Sid) (sio : List (RoomId × List Sid)) :
    List (RoomId × List Sid) :=
  match alLookup r sio with
  | some cur => alInsert r (lrem sid cur) sio
  | none => sio

/-- On transport disconnect, socketio discards the sid from every room. -/
def sioRemoveAll (sid : Sid) (sio : List (RoomId × List Sid)) :
    List (RoomId × List Sid) :=
  sio.map (fun p => (p.1, lrem sid p.2))

/-- The sids an emit is delivered to, given the socketio membership at
delivery time: a direct emit reaches the requesting socket; a broadcast
reaches every sid in the room except `skip_sid`. -/
def recipients (st : ServerState) : Emit → List Sid
  | .direct dest _ => [dest]
  | .broadcast r skip _ => (sioMembers st r).filter (fun s => decide (some s ≠ skip))

/-- All (recipient, payload) deliveries of a list of emits, against the
socketio membership of state `st`. -/
def deliveries (st : ServerState) (evs : List Emit) : List (Sid × Payload) :=
  (evs.map (fun e => (recipients st e).map (fun s => (s, e.payloadOf)))).flatten

/-- The `_remove_user_from_room(sid, user_id, room_id)` helper
(`server.py` lines 156–169): delete `user_id` from the room if present,
destroy the room if it became empty, and delete `sid`'s session if any. -/
def removeUserFromRoom (st : ServerState) (sid : Sid) (user_id : UserId)
    (room_id : RoomId) : ServerState :=
  let rooms' :=
    match alLookup room_id st.rooms with
    | some members =>
        if (alLookup user_id members).isSome then
          let members' := alErase user_id members
          if members' = [] then alErase room_id st.rooms
          else alInsert room_id members' st.rooms
        else st.rooms
    | none => st.rooms
  { rooms := rooms'
    user_rooms := alErase sid st.user_rooms
    sio := st.sio }

/-- The error payload emitted by `handle_join` / `handle_leave` on a missing
or empty `userId` / `roomId`. -/
def errRequired : Payload := .errorMsg "userId and roomId are required"

/-- The `join` handler (`server.py` lines 78–119).  Validates the two fields,
creates the room if absent, inserts `userId → sid` into the room, overwrites
the session of `sid`, joins the socketio room, then emits the `joined` reply
to the caller and the `user-joined` broadcast to the room excluding the
caller. -/
def handle_join (st : ServerState) (sid : Sid) (d : JoinData) :
    ServerState × List Emit :=
  if truthy d.userId && truthy d.roomId then
    let user_id := d.userId.getD ""
    let room_id := d.roomId.getD ""
    let rooms1 :=
      if (alLookup room_id st.rooms).isNone then alInsert room_id [] st.rooms
      else st.rooms
    let members := (alLookup room_id rooms1).getD []
    let newMembers := alInsert user_id sid members
    let rooms2 := alInsert room_id newMembers rooms1
    let st' : ServerState :=
      { rooms := rooms2
        user_rooms := alInsert sid (user_id, room_id) st.user_rooms
        sio := sioJoin room_id sid st.sio }
    let users_in_room := newMembers.map Prod.fst
    (st',
     [Emit.direct sid (.joined user_id room_id users_in_room),
      Emit.broadcast room_id (some sid) (.userJoined user_id room_id)])
  else
    (st, [Emit.direct sid errRequired])

/-- The `leave` handler (`server.py` lines 122–153).  Validates the two
fields, runs `_remove_user_from_room`, leaves the socketio room, then emits
the `leaved` reply to the caller and the `user-left` broadcast to the room
(no `skip_sid`; the caller has already left the socketio room). -/
def handle_leave (st : ServerState) (sid : Sid) (d : JoinData) :
    ServerState × List Emit :=
  if truthy d.userId && truthy d.roomId then
    let user_id := d.userId.getD ""
    let room_id := d.roomId.getD ""
    let st1 := removeUserFromRoom st sid user_id room_id
    let st2 : ServerState := { st1 with sio := sioLeave room_id sid st1.sio }
    (st2,
     [Emit.direct sid (.leaved user_id room_id),
      Emit.broadcast room_id none (.userLeft user_id room_id)])
  else
    (st, [Emit.direct sid errRequired])

/-- The `disconnect` handler (`server.py` lines 55–75) followed by
socketio's own cleanup.  If the sid has a session, run
`_remove_user_from_room` with the session's recorded user and room and
broadcast `user-left` to that room excluding the sid; in all cases socketio
then drops the sid from every socketio room. -/
def handle_disconnect (st : ServerState) (sid : Sid) :
    ServerState × List Emit :=
  match alLookup sid st.user_rooms with
  | some (user_id, room_id) =>
      let st1 := removeUserFromRoom st sid user_id room_id
      ({ st1 with sio := sioRemoveAll sid st1.sio },
       [Emit.broadcast room_id (some sid) (.userLeft user_id room_id)])
  | none =>
      ({ st with sio := sioRemoveAll sid st.sio }, [])

/-- The `message` handler (`server.py` lines 172–178): if `data.get('roomId')`
is truthy, relay the whole `data` dict verbatim to the room excluding the
sender; otherwise do nothing. -/
def handle_message (st : ServerState) (sid : Sid) (d : MsgData) :
    ServerState × List Emit :=
  if truthy d.roomId then
    (st, [Emit.broadcast (d.roomId.getD "") (some sid) (.relayed d.roomId d.rest)])
  else
    (st, [])

/-- One inbound event, as dispatched by the socketio event router. -/
inductive Op where
  | join (sid : Sid) (d : JoinData)
  | leave (sid : Sid) (d : JoinData)
  | disconnect (sid : Sid)
  | message (sid : Sid) (d : MsgData)
  deriving DecidableEq, Repr

/-- State transition of one inbound event. -/
def step (st : ServerState) : Op → ServerState
  | .join sid d => (handle_join st sid d).1
  | .leave sid d => (handle_leave st sid d).1
  | .disconnect sid => (handle_disconnect st sid).1
  | .message sid d => (handle_message st sid d).1

/-- State after running a sequence of inbound events from the empty state. -/
def run (ops : List Op) : ServerState :=
  ops.foldl step initState

/-- Invariant I1: every member entry `u → c` of every room `R` has a session
for `c` recording exactly `(u, R)`. -/
def I1 (st : ServerState) : Prop :=
  ∀ rm ∈ st.rooms, ∀ uc ∈ rm.2, alLookup uc.2 st.user_rooms = some (uc.1, rm.1)

/-- Invariant I2: every session `c → (u, r)` has room `r` existing and
mapping `u` back to `c`. -/
def I2 (st : ServerState) : Prop :=
  ∀ e ∈ st.user_rooms,
    (alLookup e.2.2 st.rooms).isSome ∧
    alLookup e.2.1 ((alLookup e.2.2 st.rooms).getD []) = some e.1

/-- Invariant I3: no room with an empty member dict exists. -/
def I3 (st : ServerState) : Prop :=
  ∀ rm ∈ st.rooms, rm.2 ≠ []

/-- Invariant I4: at most one session per connection (the keys of
`user_rooms` are pairwise distinct). -/
def I4 (st : ServerState) : Prop :=
  (st.user_rooms.map Prod.fst).Nodup

instance (st : ServerState) : Decidable (I1 st) := by
  unfold I1; infer_instance

instance (st : ServerState) : Decidable (I2 st) := by
  unfold I2; infer_instance

instance (st : ServerState) : Decidable (I3 st) := by
  unfold I3; infer_instance

instance (st : ServerState) : Decidable (I4 st) := by
  unfold I4; infer_instance

/-- Structural well-formedness of a state: room keys, each room's member
keys, and session keys are pairwise distinct (Python dict semantics; it
holds by construction and is preserved by every handler). -/
def StateWF (st : ServerState) : Prop :=
  (st.rooms.map Prod.fst).Nodup ∧
  (∀ rm ∈ st.rooms, (rm.2.map Prod.fst).Nodup) ∧
  (st.user_rooms.map Prod.fst).Nodup

/-- The inductive invariant: well-formedness together with I3. -/
def GoodState (st : ServerState) : Prop := StateWF st ∧ I3 st

instance (st : ServerState) : Decidable (StateWF st) := by
  unfold StateWF; infer_instance

instance (st : ServerState) : Decidable (GoodState st) := by
  unfold GoodState; infer_instance

/-! Association-list lemmas. -/

theorem alLookup_alInsert_self {α β : Type} [DecidableEq α] (k : α) (v : β)
    (l : List (α × β)) : alLookup k (alInsert k v l) = some v := by
  induction l with
  | nil => simp [alInsert, alLookup]
  | cons p rest ih =>
    obtain ⟨k', v'⟩ := p
    by_cases h : k' = k
    · simp [alInsert, h, alLookup]
    · simp [alInsert, h, alLookup, ih]

theorem alLookup_alInsert_ne {α β : Type} [DecidableEq α] {k k' : α} (v : β)
    (l : List (α × β)) (h : k' ≠ k) :
    alLookup k' (alInsert k v l) = alLookup k' l := by
  induction l with
  | nil => simp [alInsert, alLookup, Ne.symm h]
  | cons p rest ih =>
    obtain ⟨k₀, v₀⟩ := p
    by_cases h0 : k₀ = k
    · subst h0
      simp [alInsert, alLookup, Ne.symm h]
    · by_cases h1 : k₀ = k'
      · simp [alInsert, h0, alLookup, h1, h]
      · simp [alInsert, h0, alLookup, h1, ih]

theorem alLookup_alErase_ne {α β : Type} [DecidableEq α] {k k' : α}
    (l : List (α × β)) (h : k' ≠ k) :
    alLookup k' (alErase k l) = alLookup k' l := by
  induction l with
  | nil => simp [alErase]
  | cons p rest ih =>
    obtain ⟨k₀, v₀⟩ := p
    by_cases h0 : k₀ = k
    · subst h0
      simp [alErase, alLookup, Ne.symm h]
    · by_cases h1 : k₀ = k'
      · simp [alErase, h0, alLookup, h1, h]
      · simp [alErase, h0, alLookup, h1, ih]

theorem alLookup_eq_none {α β : Type} [DecidableEq α] {k : α}
    {l : List (α × β)} (h : k ∉ l.map Prod.fst) : alLookup k l = none := by
  induction l with
  | nil => rfl
  | cons p rest ih =>
    obtain ⟨k₀, v₀⟩ := p
    simp only [List.map_cons, List.mem_cons, not_or] at h
    simp [alLookup, Ne.symm h.1, ih h.2]

theorem alLookup_alErase_self {α β : Type} [DecidableEq α] (k : α)
    {l : List (α × β)} (h : (l.map Prod.fst).Nodup) :
    alLookup k (alErase k l) = none := by
  induction l with
  | nil => simp [alErase, alLookup]
  | cons p rest ih =>
    obtain ⟨k₀, v₀⟩ := p
    simp only [List.map_cons, List.nodup_cons] at h
    by_cases h0 : k₀ = k
    · subst h0
      simp only [alErase, if_pos rfl]
      exact alLookup_eq_none h.1
    · simp [alErase, h0, alLookup, ih h.2]

theorem mem_alErase {α β : Type} [DecidableEq α] {k : α} {p : α × β}
    {l : List (α × β)} (h : p ∈ alErase k l) : p ∈ l := by
  induction l with
  | nil => simp [alErase] at h
  | cons q rest ih =>
    obtain ⟨k₀, v₀⟩ := q
    by_cases h0 : k₀ = k
    · simp only [alErase, if_pos h0] at h
      exact List.mem_cons_of_mem _ h
    · simp only [alErase, if_neg h0, List.mem_cons] at h
      rcases h with h | h
      · exact List.mem_cons.mpr (Or.inl h)
      · exact List.mem_cons_of_mem _ (ih h)

theorem mem_alInsert {α β : Type} [DecidableEq α] {k : α} {v : β} {p : α × β}
    {l : List (α × β)} (hnd : (l.map Prod.fst).Nodup)
    (h : p ∈ alInsert k v l) : p = (k, v) ∨ (p ∈ l ∧ p.1 ≠ k) := by
  induction l with
  | nil => simp only [alInsert, List.mem_singleton] at h; exact Or.inl h
  | cons q rest ih =>
    obtain ⟨k₀, v₀⟩ := q
    simp only [List.map_cons, List.nodup_cons] at hnd
    by_cases h0 : k₀ = k
    · rw [show alInsert k v ((k₀, v₀) :: rest) = (k, v) :: rest by
        simp [alInsert, h0]] at h
      rcases List.mem_cons.mp h with h1 | h1
      · exact Or.inl h1
      · refine Or.inr ⟨List.mem_cons_of_mem _ h1, ?_⟩
        intro hek
        rw [h0] at hnd
        exact hnd.1 (List.mem_map.mpr ⟨p, h1, hek⟩)
    · rw [show alInsert k v ((k₀, v₀) :: rest) = (k₀, v₀) :: alInsert k v rest by
        simp [alInsert, h0]] at h
      rcases List.mem_cons.mp h with h1 | h1
      · subst h1
        exact Or.inr ⟨List.mem_cons.mpr (Or.inl rfl), h0⟩
      · rcases ih hnd.2 h1 with h' | h'
        · exact Or.inl h'
        · exact Or.inr ⟨List.mem_cons_of_mem _ h'.1, h'.2⟩

theorem alInsert_ne_nil {α β : Type} [DecidableEq α] (k : α) (v : β)
    (l : List (α × β)) : alInsert k v l ≠ [] := by
  cases l with
  | nil => simp [alInsert]
  | cons q rest =>
    obtain ⟨k₀, v₀⟩ := q
    by_cases h0 : k₀ = k <;> simp [alInsert, h0]

theorem keys_nodup_alInsert {α β : Type} [DecidableEq α] (k : α) (v : β)
    {l : List (α × β)} (h : (l.map Prod.fst).Nodup) :
    ((alInsert k v l).map Prod.fst).Nodup := by
  induction l with
  | nil => simp [alInsert]
  | cons q rest ih =>
    obtain ⟨k₀, v₀⟩ := q
    simp only [List.map_cons, List.nodup_cons] at h
    by_cases h0 : k₀ = k
    · rw [show alInsert k v ((k₀, v₀) :: rest) = (k, v) :: rest by
        simp [alInsert, h0]]
      simp only [List.map_cons, List.nodup_cons]
      rw [← h0]
      exact h
    · simp only [alInsert, if_neg h0, List.map_cons, List.nodup_cons]
      constructor
      · intro hm
        rcases List.mem_map.mp hm with ⟨p, hp, hfst⟩
        rcases mem_alInsert h.2 hp with h' | h'
        · exact h0 (by rw [← hfst, h'])
        · exact h.1 (List.mem_map.mpr ⟨p, h'.1, hfst⟩)
      · exact ih h.2

theorem keys_nodup_alErase {α β : Type} [DecidableEq α] (k : α)
    {l : List (α × β)} (h : (l.map Prod.fst).Nodup) :
    ((alErase k l).map Prod.fst).Nodup := by
  induction l with
  | nil => simp [alErase]
  | cons q rest ih =>
    obtain ⟨k₀, v₀⟩ := q
    simp only [List.map_cons, List.nodup_cons] at h
    by_cases h0 : k₀ = k
    · simp only [alErase, if_pos h0]
      exact h.2
    · simp only [alErase, if_neg h0, List.map_cons, List.nodup_cons]
      constructor
      · intro hm
        rcases List.mem_map.mp hm with ⟨p, hp, hfst⟩
        exact h.1 (List.mem_map.mpr ⟨p, mem_alErase hp, hfst⟩)
      · exact ih h.2

theorem alLookup_mem {α β : Type} [DecidableEq α] {k : α} {v : β}
    {l : List (α × β)} (h : alLookup k l = some v) : (k, v) ∈ l := by
  induction l with
  | nil => simp [alLookup] at h
  | cons q rest ih =>
    obtain ⟨k₀, v₀⟩ := q
    by_cases h0 : k₀ = k
    · have hl : alLookup k ((k₀, v₀) :: rest) = some v₀ := by simp [alLookup, h0]
      rw [hl] at h
      injection h with hv
      subst hv
      exact List.mem_cons.mpr (Or.inl (by rw [h0]))
    · simp only [alLookup, if_neg h0] at h
      exact List.mem_cons_of_mem _ (ih h)

theorem mem_lrem {α : Type} [DecidableEq α] {x y : α} {l : List α}
    (h : x ∈ lrem y l) : x ∈ l := by
  induction l with
  | nil => simp [lrem] at h
  | cons z rest ih =>
    by_cases h0 : z = y
    · simp only [lrem, if_pos h0] at h
      exact List.mem_cons_of_mem _ h
    · simp only [lrem, if_neg h0, List.mem_cons] at h
      rcases h with h | h
      · exact List.mem_cons.mpr (Or.inl h)
      · exact List.mem_cons_of_mem _ (ih h)

theorem mem_lrem_of_ne {α : Type} [DecidableEq α] {x y : α} {l : List α}
    (hne : x ≠ y) (h : x ∈ l) : x ∈ lrem y l := by
  induction l with
  | nil => simp [lrem] at h
  | cons z rest ih =>
    rcases List.mem_cons.mp h with h' | h'
    · subst h'
      simp [lrem, if_neg hne, List.mem_cons]
    · by_cases h0 : z = y
      · simpa [lrem, h0] using h'
      · simp only [lrem, if_neg h0, List.mem_cons]
        exact Or.inr (ih h')

theorem mem_alInsert_weak {α β : Type} [DecidableEq α] {k : α} {v : β}
    {p : α × β} {l : List (α × β)} (h : p ∈ alInsert k v l) :
    p = (k, v) ∨ p ∈ l := by
  induction l with
  | nil => simp only [alInsert, List.mem_singleton] at h; exact Or.inl h
  | cons q rest ih =>
    obtain ⟨k₀, v₀⟩ := q
    by_cases h0 : k₀ = k
    · rw [show alInsert k v ((k₀, v₀) :: rest) = (k, v) :: rest by
        simp [alInsert, h0]] at h
      rcases List.mem_cons.mp h with h1 | h1
      · exact Or.inl h1
      · exact Or.inr (List.mem_cons_of_mem _ h1)
    · rw [show alInsert k v ((k₀, v₀) :: rest) = (k₀, v₀) :: alInsert k v rest by
        simp [alInsert, h0]] at h
      rcases List.mem_cons.mp h with h1 | h1
      · exact Or.inr (List.mem_cons.mpr (Or.inl h1))
      · rcases ih h1 with h' | h'
        · exact Or.inl h'
        · exact Or.inr (List.mem_cons_of_mem _ h')

theorem key_mem_alInsert {α β : Type} [DecidableEq α] (k : α) (v : β)
    (l : List (α × β)) : k ∈ (alInsert k v l).map Prod.fst := by
  induction l with
  | nil => simp [alInsert]
  | cons q rest ih =>
    obtain ⟨k₀, v₀⟩ := q
    by_cases h0 : k₀ = k
    · rw [show alInsert k v ((k₀, v₀) :: rest) = (k, v) :: rest by
        simp [alInsert, h0]]
      simp
    · rw [show alInsert k v ((k₀, v₀) :: rest) = (k₀, v₀) :: alInsert k v rest by
        simp [alInsert, h0]]
      simp only [List.map_cons, List.mem_cons]
      exact Or.inr ih

theorem alLookup_sioRemoveAll (c : Sid) (r : RoomId)
    (sio : List (RoomId × List Sid)) :
    alLookup r (sioRemoveAll c sio) = (alLookup r sio).map (lrem c) := by
  induction sio with
  | nil => rfl
  | cons p rest ih =>
    obtain ⟨r₀, l₀⟩ := p
    by_cases h0 : r₀ = r
    · simp [sioRemoveAll, alLookup, h0]
    · simp only [sioRemoveAll, List.map_cons, alLookup, h0, if_false]
      exact ih

theorem getD_sioRemoveAll (c : Sid) (r : RoomId)
    (sio : List (RoomId × List Sid)) :
    (alLookup r (sioRemoveAll c sio)).getD [] = lrem c ((alLookup r sio).getD []) := by
  rw [alLookup_sioRemoveAll]
  cases alLookup r sio <;> simp [lrem]

theorem mem_sioJoin_of_mem {x : Sid} (c : Sid) (r : RoomId)
    {sio : List (RoomId × List Sid)} (h : x ∈ (alLookup r sio).getD []) :
    x ∈ (alLookup r (sioJoin r c sio)).getD [] := by
  by_cases hc : c ∈ (alLookup r sio).getD []
  · simpa [sioJoin, hc] using h
  · simp only [sioJoin, hc, if_false]
    rw [alLookup_alInsert_self]
    simp only [Option.getD_some, List.mem_append]
    exact Or.inl h

theorem goodState_init : GoodState initState := by
  constructor
  · exact ⟨List.nodup_nil, fun rm hm => absurd hm (List.not_mem_nil rm), List.nodup_nil⟩
  · intro rm hm
    exact absurd hm (List.not_mem_nil rm)

theorem truthy_iff (o : Option String) : truthy o = true ↔ ∃ s, o = some s ∧ s ≠ "" := by
  cases o <;> simp [truthy]

/-- Unfolding of `handle_join` on valid input. -/
theorem handle_join_valid (st : ServerState) (sid : Sid) (u r : String)
    (hu : u ≠ "") (hr : r ≠ "") :
    handle_join st sid ⟨some u, some r⟩ =
      (let rooms1 :=
        if (alLookup r st.rooms).isNone then alInsert r [] st.rooms else st.rooms
       let newMembers := alInsert u sid ((alLookup r rooms1).getD [])
       ({ rooms := alInsert r newMembers rooms1
          user_rooms := alInsert sid (u, r) st.user_rooms
          sio := sioJoin r sid st.sio },
        [Emit.direct sid (.joined u r (newMembers.map Prod.fst)),
         Emit.broadcast r (some sid) (.userJoined u r)])) := by
  simp [handle_join, truthy, hu, hr]

/-- Unfolding of `handle_join` on invalid input. -/
theorem handle_join_invalid (st : ServerState) (sid : Sid) (d : JoinData)
    (hv : ¬(truthy d.userId && truthy d.roomId) = true) :
    handle_join st sid d = (st, [Emit.direct sid errRequired]) := by
  simp [handle_join, hv]

/-- Unfolding of `handle_leave` on valid input. -/
theorem handle_leave_valid (st : ServerState) (sid : Sid) (u r : String)
    (hu : u ≠ "") (hr : r ≠ "") :
    handle_leave st sid ⟨some u, some r⟩ =
      (let st1 := removeUserFromRoom st sid u r
       ({ st1 with sio := sioLeave r sid st1.sio },
        [Emit.direct sid (.leaved u r),
         Emit.broadcast r none (.userLeft u r)])) := by
  simp [handle_leave, truthy, hu, hr]

/-- Unfolding of `handle_leave` on invalid input. -/
theorem handle_leave_invalid (st : ServerState) (sid : Sid) (d : JoinData)
    (hv : ¬(truthy d.userId && truthy d.roomId) = true) :
    handle_leave st sid d = (st, [Emit.direct sid errRequired]) := by
  simp [handle_leave, hv]

theorem goodState_removeUserFromRoom (st : ServerState) (sid : Sid) (u : UserId)
    (r : RoomId) (h : GoodState st) : GoodState (removeUserFromRoom st sid u r) := by
  obtain ⟨⟨hrk, hmk, huk⟩, h3⟩ := h
  have hur : ((alErase sid st.user_rooms).map Prod.fst).Nodup :=
    keys_nodup_alErase sid huk
  cases hm : alLookup r st.rooms with
  | none =>
    refine ⟨⟨?_, ?_, ?_⟩, ?_⟩ <;> simp only [removeUserFromRoom, hm]
    · exact hrk
    · exact hmk
    · exact hur
    · exact h3
  | some members =>
    by_cases hmem : (alLookup u members).isSome
    · by_cases hemp : alErase u members = []
      · refine ⟨⟨?_, ?_, ?_⟩, ?_⟩ <;>
          simp only [removeUserFromRoom, hm, hmem, hemp, if_true, if_pos hemp]
        · exact keys_nodup_alErase r hrk
        · exact fun rm hrm => hmk rm (mem_alErase hrm)
        · exact hur
        · exact fun rm hrm => h3 rm (mem_alErase hrm)
      · have hmnd : (members.map Prod.fst).Nodup := hmk (r, members) (alLookup_mem hm)
        refine ⟨⟨?_, ?_, ?_⟩, ?_⟩ <;>
          simp only [removeUserFromRoom, hm, hmem, if_true, if_neg hemp]
        · exact keys_nodup_alInsert r _ hrk
        · intro rm hrm
          rcases mem_alInsert hrk hrm with h' | h'
          · rw [h']
            exact keys_nodup_alErase u hmnd
          · exact hmk rm h'.1
        · exact hur
        · intro rm hrm
          rcases mem_alInsert hrk hrm with h' | h'
          · rw [h']
            exact hemp
          · exact h3 rm h'.1
    · refine ⟨⟨?_, ?_, ?_⟩, ?_⟩ <;>
        simp only [removeUserFromRoom, hm, hmem, if_false, Bool.false_eq_true]
      · exact hrk
      · exact hmk
      · exact hur
      · exact h3

theorem goodState_handle_join (st : ServerState) (sid : Sid) (d : JoinData)
    (h : GoodState st) : GoodState (handle_join st sid d).1 := by
  obtain ⟨⟨hrk, hmk, huk⟩, h3⟩ := h
  by_cases hv : (truthy d.userId && truthy d.roomId) = true
  · rw [Bool.and_eq_true] at hv
    obtain ⟨u, hdu, hu⟩ := (truthy_iff d.userId).mp hv.1
    obtain ⟨r, hdr, hr⟩ := (truthy_iff d.roomId).mp hv.2
    obtain ⟨du, dr⟩ := d
    cases hdu
    cases hdr
    rw [handle_join_valid st sid u r hu hr]
    set rooms1 :=
      if (alLookup r st.rooms).isNone then alInsert r [] st.rooms else st.rooms with hr1
    have hrk1 : (rooms1.map Prod.fst).Nodup := by
      rw [hr1]
      split
      · exact keys_nodup_alInsert r [] hrk
      · exact hrk
    have hmem1 : ∀ rm ∈ rooms1, rm.1 ≠ r → rm ∈ st.rooms := by
      intro rm hrm hne
      rw [hr1] at hrm
      revert hrm
      split
      · intro hrm
        rcases mem_alInsert hrk hrm with h' | h'
        · exact absurd (by rw [h']) hne
        · exact h'.1
      · exact id
    have hmnd : (((alLookup r rooms1).getD []).map Prod.fst).Nodup := by
      cases hl : alLookup r rooms1 with
      | none => simp
      | some members =>
        have : (r, members) ∈ rooms1 := alLookup_mem hl
        rw [hr1] at this
        revert this
        split
        · intro hmem
          rcases mem_alInsert hrk hmem with h' | h'
          · simp only [Prod.mk.injEq] at h'
            rw [h'.2]
            simp
          · exact hmk _ h'.1
        · intro hmem
          exact hmk _ hmem
    refine ⟨⟨?_, ?_, ?_⟩, ?_⟩
    · exact keys_nodup_alInsert r _ hrk1
    · intro rm hrm
      rcases mem_alInsert hrk1 hrm with h' | h'
      · rw [h']
        exact keys_nodup_alInsert u sid hmnd
      · exact hmk rm (hmem1 rm h'.1 h'.2)
    · exact keys_nodup_alInsert sid (u, r) huk
    · intro rm hrm
      rcases mem_alInsert hrk1 hrm with h' | h'
      · rw [h']
        exact alInsert_ne_nil u sid _
      · exact h3 rm (hmem1 rm h'.1 h'.2)
  · rw [handle_join_invalid st sid d hv]
    exact ⟨⟨hrk, hmk, huk⟩, h3⟩

theorem goodState_handle_leave (st : ServerState) (sid : Sid) (d : JoinData)
    (h : GoodState st) : GoodState (handle_leave st sid d).1 := by
  by_cases hv : (truthy d.userId && truthy d.roomId) = true
  · have hv' := hv
    rw [Bool.and_eq_true] at hv'
    obtain ⟨u, hdu, hu⟩ := (truthy_iff d.userId).mp hv'.1
    obtain ⟨r, hdr, hr⟩ := (truthy_iff d.roomId).mp hv'.2
    obtain ⟨du, dr⟩ := d
    cases hdu
    cases hdr
    rw [handle_leave_valid st sid u r hu hr]
    exact goodState_removeUserFromRoom st sid u r h
  · rw [handle_leave_invalid st sid d hv]
    exact h

theorem goodState_handle_disconnect (st : ServerState) (sid : Sid)
    (h : GoodState st) : GoodState (handle_disconnect st sid).1 := by
  cases hl : alLookup sid st.user_rooms with
  | none =>
    simp only [handle_disconnect, hl]
    exact h
  | some p =>
    obtain ⟨u, r⟩ := p
    simp only [handle_disconnect, hl]
    exact goodState_removeUserFromRoom st sid u r h

theorem goodState_handle_message (st : ServerState) (sid : Sid) (d : MsgData)
    (h : GoodState st) : GoodState (handle_message st sid d).1 := by
  by_cases hv : truthy d.roomId = true <;> simp only [handle_message, hv] <;> simpa

theorem goodState_step (st : ServerState) (op : Op) (h : GoodState st) :
    GoodState (step st op) := by
  cases op with
  | join sid d => exact goodState_handle_join st sid d h
  | leave sid d => exact goodState_handle_leave st sid d h
  | disconnect sid => exact goodState_handle_disconnect st sid h
  | message sid d => exact goodState_handle_message st sid d h

theorem goodState_foldl (ops : List Op) :
    ∀ st, GoodState st → GoodState (ops.foldl step st) := by
  induction ops with
  | nil => intro st h; exact h
  | cons op rest ih => intro st h; exact ih _ (goodState_step st op h)

theorem goodState_run (ops : List Op) : GoodState (run ops) :=
  goodState_foldl ops initState goodState_init

theorem removeUser_user_gone (st : ServerState) (sid : Sid) (u : UserId)
    (r : RoomId) (hrk : (st.rooms.map Prod.fst).Nodup)
    (hmk : ∀ rm ∈ st.rooms, (rm.2.map Prod.fst).Nodup) :
    alLookup u (roomMembers (removeUserFromRoom st sid u r) r) = none := by
  cases hm : alLookup r st.rooms with
  | none => simp [removeUserFromRoom, hm, roomMembers, alLookup]
  | some members =>
    by_cases hu : (alLookup u members).isSome
    · by_cases hemp : alErase u members = []
      · simp [removeUserFromRoom, hm, hu, hemp, roomMembers,
              alLookup_alErase_self r hrk, alLookup]
      · have hmnd : (members.map Prod.fst).Nodup :=
          hmk (r, members) (alLookup_mem hm)
        simp [removeUserFromRoom, hm, hu, hemp, roomMembers,
              alLookup_alInsert_self, alLookup_alErase_self u hmnd]
    · have hnone : alLookup u members = none := by
        cases h : alLookup u members with
        | none => rfl
        | some v => rw [h] at hu; simp at hu
      simp [removeUserFromRoom, hm, hu, roomMembers, hnone]

theorem removeUser_sole_room_gone (st : ServerState) (sid : Sid) (u : UserId)
    (r : RoomId) (c' : Sid) (hrk : (st.rooms.map Prod.fst).Nodup)
    (hone : alLookup r st.rooms = some [(u, c')]) :
    alLookup r (removeUserFromRoom st sid u r).rooms = none := by
  simp [removeUserFromRoom, hone, alLookup, alErase, alLookup_alErase_self r hrk]

/-- C1 counterexample: the four invariants do not all survive every operation
sequence.  A second join with the same userId/roomId from a new connection
leaves the first connection's stale session behind, violating I2; a join to a
second room without leaving the first leaves the old membership behind while
the session now records the new room, violating I1. -/
theorem invariants_violated_by_double_join :
    ¬ I2 (run [Op.join "c1" ⟨some "u", some "r"⟩,
               Op.join "c2" ⟨some "u", some "r"⟩]) ∧
    ¬ I1 (run [Op.join "c" ⟨some "u", some "A"⟩,
               Op.join "c" ⟨some "v", some "B"⟩]) := by
  decide

/-- C1 (amended): after every finite sequence of join/leave/disconnect/relay
operations from the empty state, invariants I3 (no empty room exists) and I4
(at most one session per connection) hold; I1 and I2 can be violated by
re-joins, as the counterexample shows. -/
theorem run_preserves_I3_I4 (ops : List Op) : I3 (run ops) ∧ I4 (run ops) :=
  ⟨(goodState_run ops).2, (goodState_run ops).1.2.2⟩

/-- C4: a join or leave whose userId or roomId is missing or empty emits a
single error event to the originating connection only and leaves the whole
state (rooms, sessions and socketio membership) unchanged; no broadcast is
emitted. -/
theorem validation_error_rejects (st : ServerState) (sid : Sid) (d : JoinData)
    (hv : d.userId = none ∨ d.userId = some "" ∨
          d.roomId = none ∨ d.roomId = some "") :
    handle_join st sid d = (st, [Emit.direct sid errRequired]) ∧
    handle_leave st sid d = (st, [Emit.direct sid errRequired]) ∧
    recipients st (Emit.direct sid errRequired) = [sid] := by
  have hb : ¬(truthy d.userId && truthy d.roomId) = true := by
    rcases hv with h | h | h | h <;> simp [h, truthy]
  exact ⟨handle_join_invalid st sid d hb, handle_leave_invalid st sid d hb, rfl⟩

/-- Witness for C4: a join/leave with a missing userId against the empty
state. -/
theorem validation_error_rejects_witness :
    handle_join initState "c1" ⟨none, some "r"⟩ =
      (initState, [Emit.direct "c1" errRequired]) ∧
    handle_leave initState "c1" ⟨none, some "r"⟩ =
      (initState, [Emit.direct "c1" errRequired]) ∧
    recipients initState (Emit.direct "c1" errRequired) = ["c1"] :=
  validation_error_rejects initState "c1" ⟨none, some "r"⟩ (Or.inl rfl)

/-- C7: a leave with non-empty userId and roomId clears the session of the
requesting connection unconditionally, keyed by the connection id alone —
whatever userId/roomId the request supplied and whether or not that user is
a member of that room. -/
theorem leave_clears_session_by_connection (st : ServerState) (sid : Sid)
    (u r : String) (hu : u ≠ "") (hr : r ≠ "") :
    (handle_leave st sid ⟨some u, some r⟩).1.user_rooms =
      alErase sid st.user_rooms ∧
    ((st.user_rooms.map Prod.fst).Nodup →
      alLookup sid (handle_leave st sid ⟨some u, some r⟩).1.user_rooms = none) := by
  rw [handle_leave_valid st sid u r hu hr]
  exact ⟨rfl, fun hnd => alLookup_alErase_self sid hnd⟩

/-- Witness for C7: the leave names a userId and roomId different from the
ones recorded in the connection's session, and the session is cleared all
the same. -/
theorem leave_clears_session_by_connection_witness :
    (handle_leave (run [Op.join "c1" ⟨some "u1", some "rA"⟩]) "c1"
        ⟨some "u2", some "rB"⟩).1.user_rooms =
      alErase "c1" (run [Op.join "c1" ⟨some "u1", some "rA"⟩]).user_rooms ∧
    (((run [Op.join "c1" ⟨some "u1", some "rA"⟩]).user_rooms.map Prod.fst).Nodup →
      alLookup "c1" (handle_leave (run [Op.join "c1" ⟨some "u1", some "rA"⟩])
        "c1" ⟨some "u2", some "rB"⟩).1.user_rooms = none) :=
  leave_clears_session_by_connection (run [Op.join "c1" ⟨some "u1", some "rA"⟩])
    "c1" "u2" "rB" (by decide) (by decide)

/-- C10: a message/relay whose data carries a missing or empty roomId is a
silent no-op: no emit of any kind (in particular no error event) and the
state is returned unchanged. -/
theorem message_missing_room_silent (st : ServerState) (sid : Sid) (d : MsgData)
    (hv : d.roomId = none ∨ d.roomId = some "") :
    handle_message st sid d = (st, []) := by
  rcases hv with h | h <;> simp [handle_message, truthy, h]

/-- Witness for C10: a message with no roomId field. -/
theorem message_missing_room_silent_witness :
    handle_message initState "c1" ⟨none, "offer"⟩ = (initState, []) :=
  message_missing_room_silent initState "c1" ⟨none, "offer"⟩ (Or.inl rfl)

/-- C9: a relay with a non-empty roomId leaves the state unchanged and emits
exactly one broadcast of the data verbatim to that room with the sender
excluded; the sender receives nothing, and — without any membership check on
the sender — every room member on a connection in the socketio room other
than the sender receives the payload. -/
theorem relay_fanout (st : ServerState) (sid : Sid) (d : MsgData) (r : String)
    (hd : d.roomId = some r) (hr : r ≠ "")
    (hsio : ∀ p ∈ roomMembers st r, p.2 ∈ sioMembers st r) :
    handle_message st sid d =
      (st, [Emit.broadcast r (some sid) (.relayed d.roomId d.rest)]) ∧
    sid ∉ recipients st (Emit.broadcast r (some sid) (.relayed d.roomId d.rest)) ∧
    (∀ p ∈ roomMembers st r, p.2 ≠ sid →
      p.2 ∈ recipients st (Emit.broadcast r (some sid) (.relayed d.roomId d.rest))) := by
  refine ⟨?_, ?_, ?_⟩
  · simp [handle_message, truthy, hd, hr]
  · simp [recipients, List.mem_filter]
  · intro p hp hne
    simp only [recipients, List.mem_filter]
    exact ⟨hsio p hp, by simpa using hne⟩

/-- Witness for C9: connection c3 never joined room r, yet its relay is
delivered to the two members c1 and c2 and not to c3. -/
theorem relay_fanout_witness :
    handle_message (run [Op.join "c1" ⟨some "a", some "r"⟩,
        Op.join "c2" ⟨some "b", some "r"⟩]) "c3" ⟨some "r", "sdp"⟩ =
      (run [Op.join "c1" ⟨some "a", some "r"⟩, Op.join "c2" ⟨some "b", some "r"⟩],
       [Emit.broadcast "r" (some "c3") (.relayed (some "r") "sdp")]) ∧
    "c3" ∉ recipients (run [Op.join "c1" ⟨some "a", some "r"⟩,
        Op.join "c2" ⟨some "b", some "r"⟩])
      (Emit.broadcast "r" (some "c3") (.relayed (some "r") "sdp")) ∧
    (∀ p ∈ roomMembers (run [Op.join "c1" ⟨some "a", some "r"⟩,
        Op.join "c2" ⟨some "b", some "r"⟩]) "r", p.2 ≠ "c3" →
      p.2 ∈ recipients (run [Op.join "c1" ⟨some "a", some "r"⟩,
          Op.join "c2" ⟨some "b", some "r"⟩])
        (Emit.broadcast "r" (some "c3") (.relayed (some "r") "sdp"))) :=
  relay_fanout (run [Op.join "c1" ⟨some "a", some "r"⟩,
      Op.join "c2" ⟨some "b", some "r"⟩]) "c3" ⟨some "r", "sdp"⟩ "r"
    rfl (by decide) (by decide)

/-- C2 counterexample: a leave for a userId that is not a member of the room
(here u3, while u1 and u2 occupy the room) raises no error, but it does emit
the user-left departure broadcast, and the broadcast is delivered to the
remaining member c1 — contradicting the claim that a no-op leave emits no
departure broadcast. -/
theorem leave_nonmember_still_broadcasts :
    alLookup "u3" (roomMembers (run [Op.join "c1" ⟨some "u1", some "r"⟩,
        Op.join "c2" ⟨some "u2", some "r"⟩]) "r") = none ∧
    (handle_leave (run [Op.join "c1" ⟨some "u1", some "r"⟩,
        Op.join "c2" ⟨some "u2", some "r"⟩]) "c2" ⟨some "u3", some "r"⟩).2 =
      [Emit.direct "c2" (Payload.leaved "u3" "r"),
       Emit.broadcast "r" none (Payload.userLeft "u3" "r")] ∧
    ("c1", Payload.userLeft "u3" "r") ∈
      deliveries (handle_leave (run [Op.join "c1" ⟨some "u1", some "r"⟩,
          Op.join "c2" ⟨some "u2", some "r"⟩]) "c2" ⟨some "u3", some "r"⟩).1
        (handle_leave (run [Op.join "c1" ⟨some "u1", some "r"⟩,
          Op.join "c2" ⟨some "u2", some "r"⟩]) "c2" ⟨some "u3", some "r"⟩).2 := by
  decide

/-- C2 (amended): a leave with non-empty userId and roomId for a user that is
not a member of the room produces no error and leaves the room directory
unchanged, but it still emits both the leaved acknowledgment and a user-left
departure broadcast addressed to the room. -/
theorem leave_nonmember_no_error (st : ServerState) (sid : Sid) (u r : String)
    (hu : u ≠ "") (hr : r ≠ "")
    (hnm : alLookup u (roomMembers st r) = none) :
    (handle_leave st sid ⟨some u, some r⟩).1.rooms = st.rooms ∧
    (handle_leave st sid ⟨some u, some r⟩).2 =
      [Emit.direct sid (.leaved u r), Emit.broadcast r none (.userLeft u r)] := by
  rw [handle_leave_valid st sid u r hu hr]
  refine ⟨?_, rfl⟩
  cases hm : alLookup r st.rooms with
  | none => simp [removeUserFromRoom, hm]
  | some members =>
    have hnm' : alLookup u members = none := by
      rw [roomMembers, hm] at hnm
      simpa using hnm
    simp [removeUserFromRoom, hm, hnm']

/-- Witness for C2 (amended): a leave by a connection for a userId that never
joined. -/
theorem leave_nonmember_no_error_witness :
    (handle_leave (run [Op.join "c1" ⟨some "u1", some "r"⟩]) "c2"
        ⟨some "u9", some "r"⟩).1.rooms =
      (run [Op.join "c1" ⟨some "u1", some "r"⟩]).rooms ∧
    (handle_leave (run [Op.join "c1" ⟨some "u1", some "r"⟩]) "c2"
        ⟨some "u9", some "r"⟩).2 =
      [Emit.direct "c2" (Payload.leaved "u9" "r"),
       Emit.broadcast "r" none (Payload.userLeft "u9" "r")] :=
  leave_nonmember_no_error (run [Op.join "c1" ⟨some "u1", some "r"⟩]) "c2"
    "u9" "r" (by decide) (by decide) (by decide)

/-- C6 counterexample: after c1 joins (u, r) and then c2 joins with the same
userId and roomId, the room maps u to c2, but the evicted connection c1 does
receive an event — the ordinary user-joined broadcast of the second join —
contradicting the claim that no event of any kind reaches c1. -/
theorem evicted_connection_receives_user_joined :
    alLookup "u" (roomMembers (run [Op.join "c1" ⟨some "u", some "r"⟩,
        Op.join "c2" ⟨some "u", some "r"⟩]) "r") = some "c2" ∧
    ("c1", Payload.userJoined "u" "r") ∈
      deliveries (handle_join (run [Op.join "c1" ⟨some "u", some "r"⟩]) "c2"
          ⟨some "u", some "r"⟩).1
        (handle_join (run [Op.join "c1" ⟨some "u", some "r"⟩]) "c2"
          ⟨some "u", some "r"⟩).2 := by
  decide

/-- C6 (amended): after join(C1, U, R) followed by join(C2, U, R) the room's
member entry for U points to C2 (last-write-wins), and no dedicated eviction
signal is sent to C1: the only event delivered to C1 by the second join is
the ordinary user-joined broadcast it receives as a socketio room member. -/
theorem join_replaces_connection (c1 c2 : Sid) (u r : String)
    (hc : c1 ≠ c2) (hu : u ≠ "") (hr : r ≠ "") :
    alLookup u (roomMembers
      (handle_join (handle_join initState c1 ⟨some u, some r⟩).1 c2
        ⟨some u, some r⟩).1 r) = some c2 ∧
    (deliveries
        (handle_join (handle_join initState c1 ⟨some u, some r⟩).1 c2
          ⟨some u, some r⟩).1
        (handle_join (handle_join initState c1 ⟨some u, some r⟩).1 c2
          ⟨some u, some r⟩).2).filter (fun p => decide (p.1 = c1)) =
      [(c1, Payload.userJoined u r)] := by
  have h1 : (handle_join initState c1 ⟨some u, some r⟩).1 =
      { rooms := [(r, [(u, c1)])], user_rooms := [(c1, (u, r))],
        sio := [(r, [c1])] } := by
    rw [handle_join_valid initState c1 u r hu hr]
    simp [initState, alLookup, alInsert, sioJoin]
  rw [h1, handle_join_valid _ c2 u r hu hr]
  simp [alLookup, alInsert, sioJoin, roomMembers, deliveries, recipients,
        sioMembers, Emit.payloadOf, hc, Ne.symm hc]

/-- C3: a room entry exists only with a non-empty member dict in every
reachable state; a join naming a fresh roomId creates the room with the
joiner as sole member; the leave — or the disconnect — of a room's sole
member deletes the room entry (a subsequent lookup finds nothing). -/
theorem room_lifecycle :
    (∀ ops r members, alLookup r (run ops).rooms = some members → members ≠ []) ∧
    (∀ st sid u r, u ≠ "" → r ≠ "" → alLookup r st.rooms = none →
      alLookup r (handle_join st sid ⟨some u, some r⟩).1.rooms = some [(u, sid)]) ∧
    (∀ st sid u r c, u ≠ "" → r ≠ "" → (st.rooms.map Prod.fst).Nodup →
      alLookup r st.rooms = some [(u, c)] →
      alLookup r (handle_leave st sid ⟨some u, some r⟩).1.rooms = none) ∧
    (∀ st sid u r c, (st.rooms.map Prod.fst).Nodup →
      alLookup sid st.user_rooms = some (u, r) →
      alLookup r st.rooms = some [(u, c)] →
      alLookup r (handle_disconnect st sid).1.rooms = none) := by
  refine ⟨?_, ?_, ?_, ?_⟩
  · intro ops r members hm
    exact (goodState_run ops).2 (r, members) (alLookup_mem hm)
  · intro st sid u r hu hr hnone
    rw [handle_join_valid st sid u r hu hr]
    simp [hnone, alLookup_alInsert_self, alInsert]
  · intro st sid u r c hu hr hnd hone
    rw [handle_leave_valid st sid u r hu hr]
    exact removeUser_sole_room_gone st sid u r c hnd hone
  · intro st sid u r c hnd hsess hone
    simp only [handle_disconnect, hsess]
    exact removeUser_sole_room_gone st sid u r c hnd hone

/-- Witness for C3 at concrete states: creating room r by a first join, then
deleting it by the sole member's leave, and — in a second scenario — by the
sole member's disconnect. -/
theorem room_lifecycle_witness :
    alLookup "r" (handle_join initState "c1" ⟨some "u1", some "r"⟩).1.rooms =
      some [("u1", "c1")] ∧
    alLookup "r" (handle_leave (run [Op.join "c1" ⟨some "u1", some "r"⟩]) "c1"
      ⟨some "u1", some "r"⟩).1.rooms = none ∧
    alLookup "r" (handle_disconnect (run [Op.join "c1" ⟨some "u1", some "r"⟩])
      "c1").1.rooms = none :=
  ⟨room_lifecycle.2.1 initState "c1" "u1" "r" (by decide) (by decide) rfl,
   room_lifecycle.2.2.1 (run [Op.join "c1" ⟨some "u1", some "r"⟩]) "c1" "u1" "r"
     "c1" (by decide) (by decide) (by decide) (by decide),
   room_lifecycle.2.2.2 (run [Op.join "c1" ⟨some "u1", some "r"⟩]) "c1" "u1" "r"
     "c1" (by decide) (by decide) (by decide)⟩

/-- C5: for a connection whose session records (u, r), disconnect removes u
from room r, deletes the room if u was its sole member, clears the
connection's session, emits exactly one user-left broadcast carrying (u, r)
with no direct reply, delivers nothing to the disconnecting connection, and
delivers the broadcast to every remaining member on another connection; for
a connection with no session, disconnect leaves both mappings unchanged and
emits nothing. -/
theorem disconnect_cleanup (st : ServerState) (c : Sid) (hwf : StateWF st) :
    (∀ u r, alLookup c st.user_rooms = some (u, r) →
      (∀ p ∈ roomMembers st r, p.2 ∈ sioMembers st r) →
      alLookup u (roomMembers (handle_disconnect st c).1 r) = none ∧
      (∀ c', alLookup r st.rooms = some [(u, c')] →
        alLookup r (handle_disconnect st c).1.rooms = none) ∧
      alLookup c (handle_disconnect st c).1.user_rooms = none ∧
      (handle_disconnect st c).2 = [Emit.broadcast r (some c) (.userLeft u r)] ∧
      c ∉ recipients (handle_disconnect st c).1
            (Emit.broadcast r (some c) (.userLeft u r)) ∧
      (∀ p ∈ roomMembers st r, p.1 ≠ u → p.2 ≠ c →
        p.2 ∈ recipients (handle_disconnect st c).1
          (Emit.broadcast r (some c) (.userLeft u r)))) ∧
    (alLookup c st.user_rooms = none →
      (handle_disconnect st c).1.rooms = st.rooms ∧
      (handle_disconnect st c).1.user_rooms = st.user_rooms ∧
      (handle_disconnect st c).2 = []) := by
  obtain ⟨hrk, hmk, huk⟩ := hwf
  constructor
  · intro u r hsess hsio
    have hd : handle_disconnect st c =
        ({ removeUserFromRoom st c u r with
            sio := sioRemoveAll c (removeUserFromRoom st c u r).sio },
         [Emit.broadcast r (some c) (.userLeft u r)]) := by
      simp only [handle_disconnect, hsess]
    rw [hd]
    refine ⟨?_, ?_, ?_, rfl, ?_, ?_⟩
    · exact removeUser_user_gone st c u r hrk hmk
    · intro c' hone
      exact removeUser_sole_room_gone st c u r c' hrk hone
    · exact alLookup_alErase_self c huk
    · intro hc
      simp [recipients, List.mem_filter] at hc
    · intro p hp hpu hpc
      have h2 : p.2 ∈ sioMembers st r := hsio p hp
      have h3 : p.2 ∈ lrem c (sioMembers st r) := mem_lrem_of_ne hpc h2
      have h4 : sioMembers
          { removeUserFromRoom st c u r with
              sio := sioRemoveAll c (removeUserFromRoom st c u r).sio } r =
          lrem c (sioMembers st r) := by
        show (alLookup r (sioRemoveAll c st.sio)).getD [] = _
        rw [getD_sioRemoveAll]
        rfl
      simp only [recipients, List.mem_filter, h4]
      exact ⟨h3, by simpa using hpc⟩
  · intro hnone
    simp [handle_disconnect, hnone]

/-- Witness for C5: in a two-member room, disconnecting c1 removes u1, keeps
the room, clears c1's session, and delivers user-left to c2 only; a second
scenario has the sole member's disconnect destroy the room, and a third has
a session-less connection disconnect with no effect and no emits. -/
theorem disconnect_cleanup_witness :
    alLookup "u1" (roomMembers (handle_disconnect
      (run [Op.join "c1" ⟨some "u1", some "r"⟩, Op.join "c2" ⟨some "u2", some "r"⟩])
      "c1").1 "r") = none ∧
    alLookup "c1" (handle_disconnect
      (run [Op.join "c1" ⟨some "u1", some "r"⟩, Op.join "c2" ⟨some "u2", some "r"⟩])
      "c1").1.user_rooms = none ∧
    (handle_disconnect
      (run [Op.join "c1" ⟨some "u1", some "r"⟩, Op.join "c2" ⟨some "u2", some "r"⟩])
      "c1").2 = [Emit.broadcast "r" (some "c1") (.userLeft "u1" "r")] ∧
    "c1" ∉ recipients (handle_disconnect
      (run [Op.join "c1" ⟨some "u1", some "r"⟩, Op.join "c2" ⟨some "u2", some "r"⟩])
      "c1").1 (Emit.broadcast "r" (some "c1") (.userLeft "u1" "r")) ∧
    "c2" ∈ recipients (handle_disconnect
      (run [Op.join "c1" ⟨some "u1", some "r"⟩, Op.join "c2" ⟨some "u2", some "r"⟩])
      "c1").1 (Emit.broadcast "r" (some "c1") (.userLeft "u1" "r")) ∧
    alLookup "r" (handle_disconnect (run [Op.join "c1" ⟨some "u1", some "r"⟩])
      "c1").1.rooms = none ∧
    (handle_disconnect initState "c9").1.rooms = initState.rooms ∧
    (handle_disconnect initState "c9").2 = [] := by
  have h1 := (disconnect_cleanup
    (run [Op.join "c1" ⟨some "u1", some "r"⟩, Op.join "c2" ⟨some "u2", some "r"⟩])
    "c1" (by decide)).1 "u1" "r" (by decide) (by decide)
  have h2 := (disconnect_cleanup (run [Op.join "c1" ⟨some "u1", some "r"⟩])
    "c1" (by decide)).1 "u1" "r" (by decide) (by decide)
  have h3 := (disconnect_cleanup initState "c9" (by decide)).2 rfl
  exact ⟨h1.1, h1.2.2.1, h1.2.2.2.1, h1.2.2.2.2.1,
    h1.2.2.2.2.2 ("u2", "c2") (by decide) (by decide) (by decide),
    h2.2.1 "c1" (by decide), h3.1, h3.2.2⟩

/-- C8: a valid join emits exactly the joined reply to the joining connection
— carrying the full post-join member userId list of the room, which contains
the joiner — and one user-joined broadcast carrying (u, r); the joining
connection receives no copy of the broadcast, while every member of the room
on a connection other than the joiner (present in the socketio room, per the
consistency hypothesis) does receive it. -/
theorem join_reply_and_broadcast (st : ServerState) (c : Sid) (u r : String)
    (hu : u ≠ "") (hr : r ≠ "")
    (hsio : ∀ p ∈ roomMembers st r, p.2 ∈ sioMembers st r) :
    (handle_join st c ⟨some u, some r⟩).2 =
      [Emit.direct c (.joined u r
        ((roomMembers (handle_join st c ⟨some u, some r⟩).1 r).map Prod.fst)),
       Emit.broadcast r (some c) (.userJoined u r)] ∧
    u ∈ (roomMembers (handle_join st c ⟨some u, some r⟩).1 r).map Prod.fst ∧
    c ∉ recipients (handle_join st c ⟨some u, some r⟩).1
          (Emit.broadcast r (some c) (.userJoined u r)) ∧
    (∀ p ∈ roomMembers (handle_join st c ⟨some u, some r⟩).1 r, p.2 ≠ c →
      p.2 ∈ recipients (handle_join st c ⟨some u, some r⟩).1
        (Emit.broadcast r (some c) (.userJoined u r))) := by
  rw [handle_join_valid st c u r hu hr]
  dsimp only
  have hball : roomMembers
      { rooms := alInsert r (alInsert u c ((alLookup r
          (if (alLookup r st.rooms).isNone then alInsert r [] st.rooms
           else st.rooms)).getD []))
          (if (alLookup r st.rooms).isNone then alInsert r [] st.rooms
           else st.rooms)
        user_rooms := alInsert c (u, r) st.user_rooms
        sio := sioJoin r c st.sio } r =
      alInsert u c ((alLookup r
        (if (alLookup r st.rooms).isNone then alInsert r [] st.rooms
         else st.rooms)).getD []) := by
    unfold roomMembers
    rw [alLookup_alInsert_self]
    rfl
  rw [hball]
  refine ⟨rfl, key_mem_alInsert u c _, ?_, ?_⟩
  · intro hc
    simp [recipients, List.mem_filter] at hc
  · intro p hp hpc
    have hpm : p ∈ roomMembers st r := by
      rcases mem_alInsert_weak hp with h' | h'
      · exact absurd (by rw [h']) hpc
      · by_cases hfresh : (alLookup r st.rooms).isNone
        · rw [if_pos hfresh, alLookup_alInsert_self] at h'
          simp at h'
        · rw [if_neg hfresh] at h'
          exact h'
    have h2 : p.2 ∈ sioMembers st r := hsio p hpm
    have h3 : p.2 ∈ (alLookup r (sioJoin r c st.sio)).getD [] :=
      mem_sioJoin_of_mem c r h2
    simp only [recipients, List.mem_filter]
    exact ⟨h3, by simpa using hpc⟩

/-- Witness for C8: a second user joins an occupied room; the reply lists
both members and the broadcast reaches the first member only. -/
theorem join_reply_and_broadcast_witness :
    (handle_join (run [Op.join "c1" ⟨some "u1", some "r"⟩]) "c2"
        ⟨some "u2", some "r"⟩).2 =
      [Emit.direct "c2" (.joined "u2" "r"
        ((roomMembers (handle_join (run [Op.join "c1" ⟨some "u1", some "r"⟩])
          "c2" ⟨some "u2", some "r"⟩).1 "r").map Prod.fst)),
       Emit.broadcast "r" (some "c2") (.userJoined "u2" "r")] ∧
    "u2" ∈ (roomMembers (handle_join (run [Op.join "c1" ⟨some "u1", some "r"⟩])
      "c2" ⟨some "u2", some "r"⟩).1 "r").map Prod.fst ∧
    "c2" ∉ recipients (handle_join (run [Op.join "c1" ⟨some "u1", some "r"⟩])
        "c2" ⟨some "u2", some "r"⟩).1
      (Emit.broadcast "r" (some "c2") (.userJoined "u2" "r")) ∧
    ("u1", "c1") ∈ roomMembers (handle_join
      (run [Op.join "c1" ⟨some "u1", some "r"⟩]) "c2" ⟨some "u2", some "r"⟩).1 "r" ∧
    "c1" ∈ recipients (handle_join (run [Op.join "c1" ⟨some "u1", some "r"⟩])
        "c2" ⟨some "u2", some "r"⟩).1
      (Emit.broadcast "r" (some "c2") (.userJoined "u2" "r")) := by
  have h := join_reply_and_broadcast (run [Op.join "c1" ⟨some "u1", some "r"⟩])
    "c2" "u2" "r" (by decide) (by decide) (by decide)
  exact ⟨h.1, h.2.1, h.2.2.1, by decide,
    h.2.2.2 ("u1", "c1") (by decide) (by decide)⟩

/-- Witness for C6 (amended) at concrete connection and user ids. -/
theorem join_replaces_connection_witness :
    alLookup "u" (roomMembers
      (handle_join (handle_join initState "c1" ⟨some "u", some "r"⟩).1 "c2"
        ⟨some "u", some "r"⟩).1 "r") = some "c2" ∧
    (deliveries
        (handle_join (handle_join initState "c1" ⟨some "u", some "r"⟩).1 "c2"
          ⟨some "u", some "r"⟩).1
        (handle_join (handle_join initState "c1" ⟨some "u", some "r"⟩).1 "c2"
          ⟨some "u", some "r"⟩).2).filter (fun p => decide (p.1 = "c1")) =
      [("c1", Payload.userJoined "u" "r")] :=
  join_replaces_connection "c1" "c2" "u" "r" (by decide) (by decide) (by decide)

end RtcSignal
